import Mathlib

/-!
Verification of the Wiimote motion-dynamics simulator
(Source/Core/Core/HW/WiimoteEmu/Dynamics.cpp).

Floating-point arithmetic of the source is modelled over the real numbers.
Division by zero follows the Lean convention x / 0 = 0; every place where
this matters is noted at the definition that uses it.
-/

noncomputable section

open Classical Real

/-- Three-component vector, modelling Common::Vec3 (float components). -/
@[ext]
structure Vec3 where
  x : ℝ
  y : ℝ
  z : ℝ

namespace Vec3

instance : Add Vec3 where
  add a b := ⟨a.x + b.x, a.y + b.y, a.z + b.z⟩

instance : Sub Vec3 where
  sub a b := ⟨a.x - b.x, a.y - b.y, a.z - b.z⟩

instance : Neg Vec3 where
  neg a := ⟨-a.x, -a.y, -a.z⟩

/-- Componentwise product, modelling the componentwise operator* of TVec3. -/
instance : Mul Vec3 where
  mul a b := ⟨a.x * b.x, a.y * b.y, a.z * b.z⟩

instance : Zero Vec3 where
  zero := ⟨0, 0, 0⟩

/-- Scalar multiple of a vector (vec * scalar in the source). -/
def smul (r : ℝ) (v : Vec3) : Vec3 := ⟨r * v.x, r * v.y, r * v.z⟩

/-- Vector divided by a scalar (vec / scalar in the source). -/
def divs (v : Vec3) (r : ℝ) : Vec3 := ⟨v.x / r, v.y / r, v.z / r⟩

/-- Dot product, modelling Vec3::Dot. -/
def dot (a b : Vec3) : ℝ := a.x * b.x + a.y * b.y + a.z * b.z

/-- Cross product, modelling Vec3::Cross. -/
def cross (a b : Vec3) : Vec3 :=
  ⟨a.y * b.z - a.z * b.y, a.z * b.x - a.x * b.z, a.x * b.y - a.y * b.x⟩

/-- Squared length, modelling Vec3::LengthSquared. -/
def normSq (v : Vec3) : ℝ := dot v v

/-- Length, modelling Vec3::Length. -/
def len (v : Vec3) : ℝ := Real.sqrt (normSq v)

/-- Normalization, modelling Vec3::Normalized (division of the vector by its
length; for the zero vector the real model yields the zero vector). -/
def normalized (v : Vec3) : Vec3 := divs v (len v)

/-- Component access, modelling the data[i] array view of TVec3. -/
def get (v : Vec3) : Fin 3 → ℝ
  | ⟨0, _⟩ => v.x
  | ⟨1, _⟩ => v.y
  | ⟨2, _⟩ => v.z

@[simp] theorem add_x (a b : Vec3) : (a + b).x = a.x + b.x := rfl

@[simp] theorem add_y (a b : Vec3) : (a + b).y = a.y + b.y := rfl

@[simp] theorem add_z (a b : Vec3) : (a + b).z = a.z + b.z := rfl

@[simp] theorem sub_x (a b : Vec3) : (a - b).x = a.x - b.x := rfl

@[simp] theorem sub_y (a b : Vec3) : (a - b).y = a.y - b.y := rfl

@[simp] theorem sub_z (a b : Vec3) : (a - b).z = a.z - b.z := rfl

@[simp] theorem mul_x (a b : Vec3) : (a * b).x = a.x * b.x := rfl

@[simp] theorem mul_y (a b : Vec3) : (a * b).y = a.y * b.y := rfl

@[simp] theorem mul_z (a b : Vec3) : (a * b).z = a.z * b.z := rfl

@[simp] theorem zero_x : (0 : Vec3).x = 0 := rfl

@[simp] theorem zero_y : (0 : Vec3).y = 0 := rfl

@[simp] theorem zero_z : (0 : Vec3).z = 0 := rfl

@[simp] theorem smul_x (r : ℝ) (v : Vec3) : (smul r v).x = r * v.x := rfl

@[simp] theorem smul_y (r : ℝ) (v : Vec3) : (smul r v).y = r * v.y := rfl

@[simp] theorem smul_z (r : ℝ) (v : Vec3) : (smul r v).z = r * v.z := rfl

@[simp] theorem divs_x (v : Vec3) (r : ℝ) : (divs v r).x = v.x / r := rfl

@[simp] theorem divs_y (v : Vec3) (r : ℝ) : (divs v r).y = v.y / r := rfl

@[simp] theorem divs_z (v : Vec3) (r : ℝ) : (divs v r).z = v.z / r := rfl

/-- Lagrange identity for the three-dimensional cross product. -/
theorem normSq_cross_add_sq_dot (a b : Vec3) :
    normSq (cross a b) + dot a b ^ 2 = normSq a * normSq b := by
  simp only [normSq, cross, dot]
  ring

end Vec3

/-- Constant GRAVITY_ACCELERATION. Modelled from the spec: the physical
acceleration of gravity used by the sensor encoder, in meters per second
squared (standard gravity). -/
def GRAVITY_ACCELERATION : ℝ := 9.80665

/-- Constant MathUtil::TAU (a full turn). -/
def TAU : ℝ := 2 * Real.pi

/-- Model of std::copysign over the reals: magnitude of the first argument
with the sign of the second (a non-negative second argument, including zero,
gives the positive magnitude). -/
def copysign (m s : ℝ) : ℝ := if s < 0 then -|m| else |m|

/-- Model of MathUtil::Sign: (0 < x) - (x < 0), valued in -1, 0, 1. -/
def msign (x : ℝ) : ℝ := if 0 < x then 1 else if x < 0 then -1 else 0

/-- Componentwise MathUtil::Sign of a vector. -/
def vsign (v : Vec3) : Vec3 := ⟨msign v.x, msign v.y, msign v.z⟩

/-- Model of std::clamp on reals. -/
def clampR (v lo hi : ℝ) : ℝ := if v < lo then lo else if hi < v then hi else v

/-- Model of std::clamp on integers. -/
def clampI (v lo hi : ℤ) : ℤ := if v < lo then lo else if hi < v then hi else v

/-- Model of std::lround: rounding to the nearest integer, halfway cases away
from zero. -/
def lround (x : ℝ) : ℤ := if x < 0 then -⌊-x + 1 / 2⌋ else ⌊x + 1 / 2⌋

/-- Model of MathUtil::Lerp on vectors with a componentwise parameter:
x0 + (x1 - x0) * t. -/
def lerp3 (a b t : Vec3) : Vec3 := a + (b - a) * t

/-- Quaternion. Modelled from the spec: the Common::Quaternion primitive of
VectorMath, stored as a scalar (real) part r and a vector part. -/
@[ext]
structure Quat where
  r : ℝ
  x : ℝ
  y : ℝ
  z : ℝ

namespace Quat

/-- Identity quaternion, modelling Common::Quaternion::Identity. -/
def qid : Quat := ⟨1, 0, 0, 0⟩

/-- Hamilton product, modelling quaternion operator*. -/
def qmul (p q : Quat) : Quat :=
  ⟨p.r * q.r - p.x * q.x - p.y * q.y - p.z * q.z,
   p.r * q.x + p.x * q.r + p.y * q.z - p.z * q.y,
   p.r * q.y - p.x * q.z + p.y * q.r + p.z * q.x,
   p.r * q.z + p.x * q.y - p.y * q.x + p.z * q.r⟩

/-- Rotation quaternion, modelling Common::Quaternion::Rotate(angle, axis):
cosine of the half angle as the scalar part, the axis scaled by the sine of
the half angle as the vector part. -/
def qRotate (angle : ℝ) (axis : Vec3) : Quat :=
  ⟨Real.cos (angle / 2), Real.sin (angle / 2) * axis.x,
   Real.sin (angle / 2) * axis.y, Real.sin (angle / 2) * axis.z⟩

/-- Action of a quaternion on a vector. Modelled from the spec: rotation of a
vector by a (unit) quaternion, v + 2 w (q x v) + 2 q x (q x v) with q the
vector part. -/
def rotVec (q : Quat) (v : Vec3) : Vec3 :=
  let qv : Vec3 := ⟨q.x, q.y, q.z⟩
  let uv := Vec3.cross qv v
  let uuv := Vec3.cross qv uv
  v + Vec3.smul 2 (Vec3.smul q.r uv + uuv)

@[simp] theorem rotVec_qid (v : Vec3) : rotVec qid v = v := by
  simp only [rotVec, qid, Vec3.cross, Vec3.smul]
  ext <;> simp

@[simp] theorem qmul_qid (p : Quat) : qmul p qid = p := by
  simp only [qmul, qid]
  ext <;> simp

@[simp] theorem qid_qmul (p : Quat) : qmul qid p = p := by
  simp only [qmul, qid]
  ext <;> simp

end Quat

open Vec3 Quat

/-- Reflection factor of CalculateStopDistance: the math below it expects the
velocity to be non-negative. -/
def stopFlip (velocity : ℝ) : ℝ := if velocity < 0 then -1 else 1

/-- Distance to reach zero acceleration (d_0 of the jerk-limited
CalculateStopDistance). -/
def csdjD0 (v_0 a_0 j : ℝ) : ℝ := a_0 ^ 3 / (3 * j * j) + a_0 * v_0 / j

/-- Velocity at zero acceleration (v_1 of the jerk-limited
CalculateStopDistance), with the time to zero acceleration t_0 = a_0 / j
inlined. -/
def csdjV1 (v_0 a_0 j : ℝ) : ℝ :=
  v_0 + a_0 * |a_0 / j| - copysign (j * (a_0 / j) * (a_0 / j) / 2) (a_0 / j)

/-- Distance to complete stop (d_1 of the jerk-limited
CalculateStopDistance). -/
def csdjD1 (v_0 a_0 j : ℝ) : ℝ :=
  copysign (|csdjV1 v_0 a_0 j| ^ ((3 : ℝ) / 2)) (csdjV1 v_0 a_0 j) /
    Real.sqrt j

/-- Jerk-limited stop distance, modelling the three-argument
CalculateStopDistance(velocity, acceleration, max_jerk). -/
def CalculateStopDistanceJerk (velocity acceleration max_jerk : ℝ) : ℝ :=
  (csdjD0 (velocity * stopFlip velocity) (acceleration * stopFlip velocity)
      max_jerk +
    csdjD1 (velocity * stopFlip velocity) (acceleration * stopFlip velocity)
      max_jerk) * stopFlip velocity

/-- Acceleration-limited stop distance, modelling the two-argument
CalculateStopDistance(velocity, max_accel). -/
def CalculateStopDistanceAccel (velocity max_accel : ℝ) : ℝ :=
  velocity * velocity / (2 * copysign max_accel velocity)

/-- Model of WiimoteEmu::ComplementaryFilter. -/
def ComplementaryFilter (gyroscope : Quat) (accelerometer : Vec3)
    (accel_weight : ℝ) (accelerometer_normal : Vec3) : Quat :=
  let gyro_vec := rotVec gyroscope accelerometer_normal
  let normalized_accel := normalized accelerometer
  let cos_angle := dot normalized_accel gyro_vec
  let abs_cos_angle := |cos_angle|
  if 0 < abs_cos_angle ∧ abs_cos_angle < 1 then
    let axis := normalized (cross gyro_vec normalized_accel)
    qmul (qRotate (Real.arccos cos_angle * accel_weight) axis) gyroscope
  else
    gyroscope

/-- Model of WiimoteEmu::GetRotationFromAcceleration. -/
def GetRotationFromAcceleration (accel : Vec3) : Quat :=
  let normalized_accel := normalized accel
  let angle := Real.arccos (dot normalized_accel ⟨0, 0, 1⟩)
  let axis := cross normalized_accel ⟨0, 0, 1⟩
  qRotate angle (if normSq axis ≠ 0 then normalized axis else ⟨0, 1, 0⟩)

/-- Rotational kinematic state, modelling WiimoteEmu::RotationalState. -/
@[ext]
structure RotationalState where
  angle : Vec3
  angular_velocity : Vec3

/-- Positional kinematic state, modelling WiimoteEmu::PositionalState. -/
@[ext]
structure PositionalState where
  position : Vec3
  velocity : Vec3
  acceleration : Vec3

/-- Combined state, modelling WiimoteEmu::MotionState (which derives from both
PositionalState and RotationalState). -/
@[ext]
structure MotionState where
  position : Vec3
  velocity : Vec3
  acceleration : Vec3
  angle : Vec3
  angular_velocity : Vec3

/-- Zero-initialized MotionState, the value of writing {} to the struct. -/
def MotionState.mzero : MotionState := ⟨0, 0, 0, 0, 0⟩

/-- Rotational slice of a MotionState (base-class view used when the source
passes a MotionState pointer to a function taking RotationalState). -/
def MotionState.rot (s : MotionState) : RotationalState :=
  ⟨s.angle, s.angular_velocity⟩

/-- Positional slice of a MotionState. -/
def MotionState.pos (s : MotionState) : PositionalState :=
  ⟨s.position, s.velocity, s.acceleration⟩

/-- Write a rotational slice back into a MotionState. -/
def MotionState.withRot (s : MotionState) (r : RotationalState) : MotionState :=
  { s with angle := r.angle, angular_velocity := r.angular_velocity }

/-- Write a positional slice back into a MotionState. -/
def MotionState.withPos (s : MotionState) (p : PositionalState) : MotionState :=
  { s with position := p.position, velocity := p.velocity,
           acceleration := p.acceleration }

/-- Per-axis stop distances of ApproachAngleWithAccel. -/
def angleStopDistance (s : RotationalState) (max_accel : ℝ) : Vec3 :=
  ⟨CalculateStopDistanceAccel s.angular_velocity.x max_accel,
   CalculateStopDistanceAccel s.angular_velocity.y max_accel,
   CalculateStopDistanceAccel s.angular_velocity.z max_accel⟩

/-- Offset from the current angle to the target in ApproachAngleWithAccel. -/
def angleOffset (s : RotationalState) (angle_target : Vec3) : Vec3 :=
  angle_target - s.angle

/-- Bang-bang acceleration chosen by ApproachAngleWithAccel. -/
def angleAccel (s : RotationalState) (angle_target : Vec3) (max_accel : ℝ) :
    Vec3 :=
  smul max_accel (vsign (angleOffset s angle_target -
    angleStopDistance s max_accel))

/-- Angular velocity after the integration step of ApproachAngleWithAccel
(before the per-axis overshoot guard). -/
def angleVelStep (s : RotationalState) (angle_target : Vec3)
    (max_accel time_elapsed : ℝ) : Vec3 :=
  s.angular_velocity + smul time_elapsed (angleAccel s angle_target max_accel)

/-- Tentative change in angle computed by ApproachAngleWithAccel. -/
def angleChange (s : RotationalState) (angle_target : Vec3)
    (max_accel time_elapsed : ℝ) : Vec3 :=
  smul time_elapsed (angleVelStep s angle_target max_accel time_elapsed) +
    smul (time_elapsed * time_elapsed / 2) (angleAccel s angle_target max_accel)

/-- Per-axis body of the loop of ApproachAngleWithAccel: given the original
angle, the stepped velocity, the target, the tentative change and the elapsed
time for one axis, produce the new (angle, angular velocity) pair. -/
def approachAngleAxis (angle vel1 target change time_elapsed : ℝ) : ℝ × ℝ :=
  if |target - angle| < 0.0001 ∨ change / (target - angle) > 1 then
    (target, (target - angle) / time_elapsed)
  else
    (angle + change, vel1)

/-- Model of WiimoteEmu::ApproachAngleWithAccel. -/
def ApproachAngleWithAccel (s : RotationalState) (angle_target : Vec3)
    (max_accel time_elapsed : ℝ) : RotationalState :=
  let vel1 := angleVelStep s angle_target max_accel time_elapsed
  let change := angleChange s angle_target max_accel time_elapsed
  let px := approachAngleAxis s.angle.x vel1.x angle_target.x change.x
    time_elapsed
  let py := approachAngleAxis s.angle.y vel1.y angle_target.y change.y
    time_elapsed
  let pz := approachAngleAxis s.angle.z vel1.z angle_target.z change.z
    time_elapsed
  ⟨⟨px.1, py.1, pz.1⟩, ⟨px.2, py.2, pz.2⟩⟩

/-- Per-axis stop distances of ApproachPositionWithJerk. -/
def posStopDistance (s : PositionalState) (max_jerk : Vec3) : Vec3 :=
  ⟨CalculateStopDistanceJerk s.velocity.x s.acceleration.x max_jerk.x,
   CalculateStopDistanceJerk s.velocity.y s.acceleration.y max_jerk.y,
   CalculateStopDistanceJerk s.velocity.z s.acceleration.z max_jerk.z⟩

/-- Offset from the current position to the target in
ApproachPositionWithJerk. -/
def posOffset (s : PositionalState) (position_target : Vec3) : Vec3 :=
  position_target - s.position

/-- Bang-bang jerk chosen by ApproachPositionWithJerk. -/
def posJerk (s : PositionalState) (position_target max_jerk : Vec3) : Vec3 :=
  vsign (posOffset s position_target - posStopDistance s max_jerk) * max_jerk

/-- Acceleration after the integration step of ApproachPositionWithJerk. -/
def posAccelStep (s : PositionalState) (position_target max_jerk : Vec3)
    (time_elapsed : ℝ) : Vec3 :=
  s.acceleration + smul time_elapsed (posJerk s position_target max_jerk)

/-- Velocity after the integration step of ApproachPositionWithJerk. -/
def posVelStep (s : PositionalState) (position_target max_jerk : Vec3)
    (time_elapsed : ℝ) : Vec3 :=
  s.velocity +
    smul time_elapsed (posAccelStep s position_target max_jerk time_elapsed) +
    smul (time_elapsed * time_elapsed / 2) (posJerk s position_target max_jerk)

/-- Projected change in position computed by ApproachPositionWithJerk. -/
def posChange (s : PositionalState) (position_target max_jerk : Vec3)
    (time_elapsed : ℝ) : Vec3 :=
  smul time_elapsed (posVelStep s position_target max_jerk time_elapsed) +
    smul (time_elapsed * time_elapsed / 2)
      (posAccelStep s position_target max_jerk time_elapsed) +
    smul (time_elapsed * time_elapsed * time_elapsed / 6)
      (posJerk s position_target max_jerk)

/-- Per-axis body of the loop of ApproachPositionWithJerk: given the original
position, the stepped acceleration and velocity, the target, the offset and
the projected change for one axis, produce the new
(acceleration, velocity, position) triple. The guard divides the change by
the offset exactly as the source does. -/
def approachPosAxis (position accel1 vel1 target offset change : ℝ) :
    ℝ × ℝ × ℝ :=
  if change / offset > 1 then (0, 0, target)
  else (accel1, vel1, position + change)

/-- Model of WiimoteEmu::ApproachPositionWithJerk. -/
def ApproachPositionWithJerk (s : PositionalState)
    (position_target max_jerk : Vec3) (time_elapsed : ℝ) : PositionalState :=
  let accel1 := posAccelStep s position_target max_jerk time_elapsed
  let vel1 := posVelStep s position_target max_jerk time_elapsed
  let offset := posOffset s position_target
  let change := posChange s position_target max_jerk time_elapsed
  let px := approachPosAxis s.position.x accel1.x vel1.x position_target.x
    offset.x change.x
  let py := approachPosAxis s.position.y accel1.y vel1.y position_target.y
    offset.y change.y
  let pz := approachPosAxis s.position.z accel1.z vel1.z position_target.z
    offset.z change.z
  ⟨⟨px.2.2, py.2.2, pz.2.2⟩, ⟨px.2.1, py.2.1, pz.2.1⟩, ⟨px.1, py.1, pz.1⟩⟩

/-- Calibrated accelerometer triple, modelling WiimoteCommon::AccelData
(10-bit values; the clamp keeps them in unsigned range, so they are carried
as integers). -/
@[ext]
structure AccelData where
  x : ℤ
  y : ℤ
  z : ℤ

/-- Model of WiimoteEmu::ConvertAccelData. The u16 calibration constants
zero_g and one_g are promoted to int by the subtraction in the source, so the
difference is exact. -/
def ConvertAccelData (accel : Vec3) (zero_g one_g : ℕ) : AccelData :=
  let scaled_accel := smul (((one_g : ℝ) - (zero_g : ℝ)) / GRAVITY_ACCELERATION)
    accel
  let MAX_VALUE : ℤ := 2 ^ 10 - 1
  ⟨clampI (lround (scaled_accel.x + (zero_g : ℝ))) 0 MAX_VALUE,
   clampI (lround (scaled_accel.y + (zero_g : ℝ))) 0 MAX_VALUE,
   clampI (lround (scaled_accel.z + (zero_g : ℝ))) 0 MAX_VALUE⟩

/-- Remapped swing target position: input (x, y, z) to device (-x, -z, y). -/
def swingTargetPosition (input_state : Vec3) : Vec3 :=
  ⟨-input_state.x, -input_state.z, input_state.y⟩

/-- Per-axis speed of EmulateSwing: return speed and full speed interpolated
linearly by normalized distance from center (X and Z share the lateral
distance). -/
def swingSpeed (input_state : Vec3) (max_distance return_speed speed : ℝ) :
    Vec3 :=
  let target_position := swingTargetPosition input_state
  let xz_target_dist :=
    Real.sqrt (target_position.x ^ 2 + target_position.z ^ 2)
  let y_target_dist := |target_position.y|
  let target_dist : Vec3 := ⟨xz_target_dist, y_target_dist, xz_target_dist⟩
  lerp3 (smul return_speed ⟨1, 1, 1⟩) (smul speed ⟨1, 1, 1⟩)
    (divs target_dist max_distance)

/-- State of EmulateSwing after the angle approach and the X/Z rotation
clamp, before the backswing position approach. -/
def swingAfterRotation (s : MotionState) (input_state : Vec3)
    (max_distance max_angle return_speed speed time_elapsed : ℝ) :
    MotionState :=
  let target_position := swingTargetPosition input_state
  let sp := swingSpeed input_state max_distance return_speed speed
  let max_accel := max_angle * sp.x * sp.x
  let target_angle := smul max_angle
    (divs ⟨-target_position.z, 0, target_position.x⟩ max_distance)
  let s1 := s.withRot
    (ApproachAngleWithAccel s.rot target_angle (max_accel * 2) time_elapsed)
  let avx := if |s1.angle.x / max_angle| > 1 ∧
      msign s1.angular_velocity.x = msign s1.angle.x then 0
    else s1.angular_velocity.x
  let avz := if |s1.angle.z / max_angle| > 1 ∧
      msign s1.angular_velocity.z = msign s1.angle.z then 0
    else s1.angular_velocity.z
  { s1 with angular_velocity := ⟨avx, s1.angular_velocity.y, avz⟩ }

/-- State of EmulateSwing after the backswing-adjusted position approach,
before the positional clamps. -/
def swingBeforeClamp (s : MotionState) (input_state : Vec3)
    (max_distance max_angle return_speed speed time_elapsed : ℝ) :
    MotionState :=
  let target_position := swingTargetPosition input_state
  let sp := swingSpeed input_state max_distance return_speed speed
  let max_jerk := smul 4 (sp * sp * sp)
  let s1 := swingAfterRotation s input_state max_distance max_angle
    return_speed speed time_elapsed
  let backwards_angle := max |s1.angle.x| |s1.angle.z|
  let backwards_movement := (1 - Real.cos backwards_angle) * max_distance
  s1.withPos (ApproachPositionWithJerk s1.pos
    (target_position + ⟨0, backwards_movement, 0⟩) max_jerk time_elapsed)

/-- Lateral clamp of EmulateSwing: keep left/right/forward movement within
the configured circle, zeroing X/Z velocity and acceleration when clamped. -/
def swingClampXZ (s : MotionState) (max_distance : ℝ) : MotionState :=
  let xz_progress :=
    Real.sqrt (s.position.x ^ 2 + s.position.z ^ 2) / max_distance
  if xz_progress > 1 then
    { s with position := ⟨s.position.x / xz_progress, s.position.y,
                          s.position.z / xz_progress⟩,
             acceleration := ⟨0, s.acceleration.y, 0⟩,
             velocity := ⟨0, s.velocity.y, 0⟩ }
  else s

/-- Vertical clamp of EmulateSwing: keep forward/backward movement within the
configured distance, allowing extra backwards movement for the back swing. -/
def swingClampY (s : MotionState) (max_distance max_angle : ℝ) : MotionState :=
  let y_progress := s.position.y / max_distance
  let max_y_progress := 2 - Real.cos max_angle
  if y_progress > max_y_progress ∨ y_progress < -1 then
    { s with position := ⟨s.position.x,
               clampR s.position.y (-1 * max_distance)
                 (max_y_progress * max_distance), s.position.z⟩,
             velocity := ⟨s.velocity.x, 0, s.velocity.z⟩,
             acceleration := ⟨s.acceleration.x, 0, s.acceleration.z⟩ }
  else s

/-- Model of WiimoteEmu::EmulateSwing. The input-group getters (state vector,
max distance, twist angle, return speed, speed) enter as parameters. -/
def EmulateSwing (s : MotionState) (input_state : Vec3)
    (max_distance max_angle return_speed speed time_elapsed : ℝ) :
    MotionState :=
  swingClampY
    (swingClampXZ
      (swingBeforeClamp s input_state max_distance max_angle return_speed
        speed time_elapsed)
      max_distance)
    max_distance max_angle

/-- Neutral sensor-bar distance used by EmulatePoint. -/
def NEUTRAL_DISTANCE : ℝ := 2

/-- Model of WiimoteEmu::EmulatePoint. The per-title aim-correction block of
the source only rewrites the cursor coordinates, the yaw, pitch and
vertical-offset scalars and the aim_corrected flag, without touching the
motion state, the visibility flag or the control flow; its outputs enter this
model as the parameters cursor_x, cursor_y, vertical_offset, yaw, pitch and
aim_corrected, so quantifying over them covers every title identifier, ratio
and correction table. -/
def EmulatePoint (s : MotionState) (cursor_visible : Bool)
    (cursor_x cursor_y vertical_offset yaw pitch : ℝ)
    (aim_corrected sensor_bar_on_top fastPointer : Bool)
    (time_elapsed : ℝ) : MotionState :=
  if cursor_visible = false then
    { MotionState.mzero with position := ⟨0, -1000, 0⟩ }
  else
    let height := vertical_offset * (if sensor_bar_on_top then 1 else -1)
    let yaw_scale := yaw / 2
    let pitch_scale := pitch / 2
    let s1 : MotionState :=
      { s with position := ⟨0, NEUTRAL_DISTANCE, -height⟩,
               velocity := 0, acceleration := 0 }
    let target_angle : Vec3 :=
      ⟨pitch_scale * -cursor_y, 0, yaw_scale * -cursor_x⟩
    if s1.position.y < 0 then
      { s1 with angle := target_angle, angular_velocity := 0 }
    else if fastPointer = true ∧ aim_corrected = true then
      s1.withRot (ApproachAngleWithAccel s1.rot target_angle (TAU * 50)
        time_elapsed)
    else
      s1.withRot (ApproachAngleWithAccel s1.rot target_angle (TAU * 8)
        time_elapsed)

/-! Basic facts about the scalar helpers. -/

theorem msign_of_pos {x : ℝ} (h : 0 < x) : msign x = 1 := by
  simp [msign, h]

theorem msign_of_neg {x : ℝ} (h : x < 0) : msign x = -1 := by
  simp [msign, h, asymm h]

@[simp] theorem msign_zero : msign 0 = 0 := by
  simp [msign]

theorem copysign_of_nonneg {s : ℝ} (m : ℝ) (h : 0 ≤ s) :
    copysign m s = |m| := by
  simp [copysign, not_lt.mpr h]

theorem copysign_of_neg {s : ℝ} (m : ℝ) (h : s < 0) : copysign m s = -|m| := by
  simp [copysign, h]

theorem copysign_eq_msign_mul (m s : ℝ) (hm : 0 ≤ m) (hz : s = 0 → m = 0) :
    copysign m s = msign s * m := by
  rcases lt_trichotomy s 0 with hs | hs | hs
  · rw [copysign_of_neg m hs, msign_of_neg hs, abs_of_nonneg hm]
    ring
  · subst hs
    rw [copysign_of_nonneg m le_rfl, msign_zero, hz rfl, abs_zero, zero_mul]
  · rw [copysign_of_nonneg m hs.le, msign_of_pos hs, abs_of_nonneg hm,
      one_mul]

theorem msign_div_of_pos (a j : ℝ) (hj : 0 < j) : msign (a / j) = msign a := by
  rcases lt_trichotomy a 0 with ha | ha | ha
  · rw [msign_of_neg ha, msign_of_neg (div_neg_of_neg_of_pos ha hj)]
  · subst ha
    simp
  · rw [msign_of_pos ha, msign_of_pos (div_pos ha hj)]

theorem clampR_mem {lo hi : ℝ} (v : ℝ) (h : lo ≤ hi) :
    lo ≤ clampR v lo hi ∧ clampR v lo hi ≤ hi := by
  unfold clampR
  split_ifs with h1 h2
  · exact ⟨le_rfl, h⟩
  · exact ⟨h, le_rfl⟩
  · exact ⟨not_lt.mp h1, not_lt.mp h2⟩

theorem clampI_mem {lo hi : ℤ} (v : ℤ) (h : lo ≤ hi) :
    lo ≤ clampI v lo hi ∧ clampI v lo hi ≤ hi := by
  unfold clampI
  split_ifs with h1 h2
  · exact ⟨le_rfl, h⟩
  · exact ⟨h, le_rfl⟩
  · exact ⟨not_lt.mp h1, not_lt.mp h2⟩

theorem Vec3.normSq_nonneg (v : Vec3) : 0 ≤ normSq v := by
  simp only [normSq, dot]
  nlinarith [mul_self_nonneg v.x, mul_self_nonneg v.y, mul_self_nonneg v.z]

theorem Vec3.dot_comm (a b : Vec3) : dot a b = dot b a := by
  simp only [dot]
  ring

theorem Vec3.normSq_normalized {v : Vec3} (h : normSq v ≠ 0) :
    normSq (normalized v) = 1 := by
  have hpos : 0 < normSq v := (Vec3.normSq_nonneg v).lt_of_ne (Ne.symm h)
  have hlen : len v ^ 2 = normSq v := Real.sq_sqrt (Vec3.normSq_nonneg v)
  have hlen0 : len v ≠ 0 := by
    intro h0
    rw [h0] at hlen
    simp at hlen
    exact h hlen.symm
  simp only [normalized, divs, normSq, dot] at *
  field_simp
  nlinarith [hlen]

/-! Spec-side closed form for the jerk-limited stop distance, used to compare
the implementation against the specification text. -/

/-- Modelled from the spec: the velocity at the zero-acceleration point of
constant-jerk motion, v_0 + a_0 t - sign(a_0) j t^2 / 2 evaluated at the
(non-negative) time to zero acceleration t = |a_0 / j|. -/
def specV1 (v_0 a_0 j : ℝ) : ℝ :=
  v_0 + a_0 * |a_0 / j| - msign a_0 * (j * (a_0 / j) ^ 2 / 2)

/-- Modelled from the spec: the distance from v_1 to rest,
sign(v_1) times |v_1| to the power 1.5, divided by the square root of j. -/
def specD1 (v_0 a_0 j : ℝ) : ℝ :=
  msign (specV1 v_0 a_0 j) * |specV1 v_0 a_0 j| ^ ((3 : ℝ) / 2) / Real.sqrt j

/-- Modelled from the spec: the constant-jerk closed form for the stop
distance, d_0 + d_1 sign-corrected back to the original velocity
direction. -/
def specStopDistanceJerk (velocity acceleration max_jerk : ℝ) : ℝ :=
  (csdjD0 (velocity * stopFlip velocity) (acceleration * stopFlip velocity)
      max_jerk +
    specD1 (velocity * stopFlip velocity) (acceleration * stopFlip velocity)
      max_jerk) * stopFlip velocity

theorem csdjV1_eq_specV1 (v_0 a_0 j : ℝ) (hj : 0 < j) :
    csdjV1 v_0 a_0 j = specV1 v_0 a_0 j := by
  unfold csdjV1 specV1
  rw [copysign_eq_msign_mul (j * (a_0 / j) * (a_0 / j) / 2) (a_0 / j)
    (by nlinarith [mul_self_nonneg (a_0 / j), hj.le])
    (fun h => by rw [h]; ring), msign_div_of_pos a_0 j hj]
  ring

theorem csdjD1_eq_specD1 (v_0 a_0 j : ℝ) (hj : 0 < j) :
    csdjD1 v_0 a_0 j = specD1 v_0 a_0 j := by
  unfold csdjD1 specD1
  rw [csdjV1_eq_specV1 v_0 a_0 j hj]
  rw [copysign_eq_msign_mul (|specV1 v_0 a_0 j| ^ ((3 : ℝ) / 2))
    (specV1 v_0 a_0 j) (Real.rpow_nonneg (abs_nonneg _) _)
    (fun h => by rw [h, abs_zero, Real.zero_rpow (by norm_num)])]

theorem CalculateStopDistanceAccel_zero (max_accel : ℝ) :
    CalculateStopDistanceAccel 0 max_accel = 0 := by
  unfold CalculateStopDistanceAccel
  norm_num

theorem CalculateStopDistanceJerk_zero (max_jerk : ℝ) :
    CalculateStopDistanceJerk 0 0 max_jerk = 0 := by
  unfold CalculateStopDistanceJerk csdjD1 csdjV1 csdjD0 stopFlip copysign
  norm_num [Real.zero_rpow]

/-- C4: the jerk-limited CalculateStopDistance agrees with the constant-jerk
closed form of the specification: reflect so velocity is non-negative,
compute the distance d_0 to the zero-acceleration point, the velocity v_1 at
that point, the distance d_1 = sign(v_1) |v_1|^1.5 / sqrt(j) from v_1 to
rest, and return d_0 + d_1 corrected back to the original velocity
direction. -/
theorem calculateStopDistanceJerk_closed_form
    (velocity acceleration max_jerk : ℝ) (hj : 0 < max_jerk) :
    CalculateStopDistanceJerk velocity acceleration max_jerk =
      specStopDistanceJerk velocity acceleration max_jerk := by
  unfold CalculateStopDistanceJerk specStopDistanceJerk
  rw [csdjD1_eq_specD1 _ _ _ hj]

/-- Witness for C4 at velocity 1, acceleration 0, max jerk 1. -/
theorem calculateStopDistanceJerk_closed_form_witness :
    0 < (1 : ℝ) ∧
      CalculateStopDistanceJerk 1 0 1 = specStopDistanceJerk 1 0 1 :=
  ⟨one_pos, calculateStopDistanceJerk_closed_form 1 0 1 one_pos⟩

/-- C6: for nonzero max acceleration the acceleration-limited
CalculateStopDistance has the same sign as the velocity, and is exactly zero
for zero velocity. -/
theorem calculateStopDistanceAccel_sign (velocity max_accel : ℝ)
    (h : max_accel ≠ 0) :
    msign (CalculateStopDistanceAccel velocity max_accel) = msign velocity ∧
    (velocity = 0 → CalculateStopDistanceAccel velocity max_accel = 0) := by
  have habs : 0 < |max_accel| := abs_pos.mpr h
  constructor
  · rcases lt_trichotomy velocity 0 with hv | hv | hv
    · have hneg : CalculateStopDistanceAccel velocity max_accel < 0 := by
        unfold CalculateStopDistanceAccel
        rw [copysign_of_neg _ hv]
        apply div_neg_of_pos_of_neg
        · exact mul_pos_of_neg_of_neg hv hv
        · linarith
      rw [msign_of_neg hneg, msign_of_neg hv]
    · subst hv
      rw [CalculateStopDistanceAccel_zero, msign_zero]
    · have hpos : 0 < CalculateStopDistanceAccel velocity max_accel := by
        unfold CalculateStopDistanceAccel
        rw [copysign_of_nonneg _ hv.le]
        exact div_pos (mul_pos hv hv) (by linarith)
      rw [msign_of_pos hpos, msign_of_pos hv]
  · intro hv
    subst hv
    exact CalculateStopDistanceAccel_zero max_accel

/-- Witness for C6 at velocity 1, max acceleration 2. -/
theorem calculateStopDistanceAccel_sign_witness :
    (2 : ℝ) ≠ 0 ∧
      (msign (CalculateStopDistanceAccel 1 2) = msign 1 ∧
        ((1 : ℝ) = 0 → CalculateStopDistanceAccel 1 2 = 0)) :=
  ⟨two_ne_zero, calculateStopDistanceAccel_sign 1 2 two_ne_zero⟩

/-- C5: ConvertAccelData returns, per axis, the rounded and clamped
calibrated value clamp(round(accel (one_g - zero_g) / g + zero_g), 0, 1023),
and every component lies in the interval [0, 1023] whatever the input
magnitude. -/
theorem convertAccelData_spec (accel : Vec3) (zero_g one_g : ℕ) :
    ((ConvertAccelData accel zero_g one_g).x =
        clampI (lround (accel.x * ((one_g : ℝ) - (zero_g : ℝ)) /
          GRAVITY_ACCELERATION + (zero_g : ℝ))) 0 1023 ∧
      (ConvertAccelData accel zero_g one_g).y =
        clampI (lround (accel.y * ((one_g : ℝ) - (zero_g : ℝ)) /
          GRAVITY_ACCELERATION + (zero_g : ℝ))) 0 1023 ∧
      (ConvertAccelData accel zero_g one_g).z =
        clampI (lround (accel.z * ((one_g : ℝ) - (zero_g : ℝ)) /
          GRAVITY_ACCELERATION + (zero_g : ℝ))) 0 1023) ∧
    (0 ≤ (ConvertAccelData accel zero_g one_g).x ∧
      (ConvertAccelData accel zero_g one_g).x ≤ 1023) ∧
    (0 ≤ (ConvertAccelData accel zero_g one_g).y ∧
      (ConvertAccelData accel zero_g one_g).y ≤ 1023) ∧
    (0 ≤ (ConvertAccelData accel zero_g one_g).z ∧
      (ConvertAccelData accel zero_g one_g).z ≤ 1023) := by
  have e : ∀ X : ℝ,
      ((one_g : ℝ) - (zero_g : ℝ)) / GRAVITY_ACCELERATION * X + (zero_g : ℝ)
        = X * ((one_g : ℝ) - (zero_g : ℝ)) / GRAVITY_ACCELERATION +
          (zero_g : ℝ) := fun X => by ring
  have hml : ((2 : ℤ) ^ 10 - 1) = 1023 := by norm_num
  have hx : (ConvertAccelData accel zero_g one_g).x =
      clampI (lround (accel.x * ((one_g : ℝ) - (zero_g : ℝ)) /
        GRAVITY_ACCELERATION + (zero_g : ℝ))) 0 1023 := by
    show clampI (lround (((one_g : ℝ) - (zero_g : ℝ)) / GRAVITY_ACCELERATION *
      accel.x + (zero_g : ℝ))) 0 ((2 : ℤ) ^ 10 - 1) = _
    rw [e accel.x, hml]
  have hy : (ConvertAccelData accel zero_g one_g).y =
      clampI (lround (accel.y * ((one_g : ℝ) - (zero_g : ℝ)) /
        GRAVITY_ACCELERATION + (zero_g : ℝ))) 0 1023 := by
    show clampI (lround (((one_g : ℝ) - (zero_g : ℝ)) / GRAVITY_ACCELERATION *
      accel.y + (zero_g : ℝ))) 0 ((2 : ℤ) ^ 10 - 1) = _
    rw [e accel.y, hml]
  have hz : (ConvertAccelData accel zero_g one_g).z =
      clampI (lround (accel.z * ((one_g : ℝ) - (zero_g : ℝ)) /
        GRAVITY_ACCELERATION + (zero_g : ℝ))) 0 1023 := by
    show clampI (lround (((one_g : ℝ) - (zero_g : ℝ)) / GRAVITY_ACCELERATION *
      accel.z + (zero_g : ℝ))) 0 ((2 : ℤ) ^ 10 - 1) = _
    rw [e accel.z, hml]
  refine ⟨⟨hx, hy, hz⟩, ?_, ?_, ?_⟩
  · rw [hx]
    exact clampI_mem _ (by norm_num)
  · rw [hy]
    exact clampI_mem _ (by norm_num)
  · rw [hz]
    exact clampI_mem _ (by norm_num)

/-- C8: when the cursor is flagged not visible, EmulatePoint resets the whole
motion state and puts the position a kilometer forward of the sensor bar,
independently of the prior state, the correction outputs, the sensor bar
position and the fast-pointer flag; velocity, acceleration, angle and
angular velocity are all zero afterwards. -/
theorem emulatePoint_invisible_reset (s : MotionState)
    (cursor_x cursor_y vertical_offset yaw pitch : ℝ)
    (aim_corrected sensor_bar_on_top fastPointer : Bool)
    (time_elapsed : ℝ) :
    EmulatePoint s false cursor_x cursor_y vertical_offset yaw pitch
        aim_corrected sensor_bar_on_top fastPointer time_elapsed =
      ⟨⟨0, -1000, 0⟩, 0, 0, 0, 0⟩ := by
  rfl

/-- C2: per axis, ApproachAngleWithAccel snaps exactly onto the target with
angular velocity offset / dt when the offset is below 1e-4 in magnitude or
the tentative change divided by the offset exceeds 1, and otherwise adds
the tentative change to the angle. -/
theorem approachAngleWithAccel_axis_spec (s : RotationalState)
    (angle_target : Vec3) (max_accel time_elapsed : ℝ) (i : Fin 3) :
    ((|(angleOffset s angle_target).get i| < 0.0001 ∨
        (angleChange s angle_target max_accel time_elapsed).get i /
            (angleOffset s angle_target).get i > 1) →
      (ApproachAngleWithAccel s angle_target max_accel
            time_elapsed).angle.get i = angle_target.get i ∧
        (ApproachAngleWithAccel s angle_target max_accel
            time_elapsed).angular_velocity.get i =
          (angleOffset s angle_target).get i / time_elapsed) ∧
    (¬ (|(angleOffset s angle_target).get i| < 0.0001 ∨
        (angleChange s angle_target max_accel time_elapsed).get i /
            (angleOffset s angle_target).get i > 1) →
      (ApproachAngleWithAccel s angle_target max_accel
            time_elapsed).angle.get i =
        s.angle.get i +
          (angleChange s angle_target max_accel time_elapsed).get i) := by
  fin_cases i <;>
  · simp only [ApproachAngleWithAccel, approachAngleAxis, angleOffset,
      Vec3.get, Vec3.sub_x, Vec3.sub_y, Vec3.sub_z]
    split_ifs with hC
    · exact ⟨fun _ => ⟨rfl, rfl⟩, fun hn => absurd hC hn⟩
    · exact ⟨fun h => absurd h hC, fun _ => rfl⟩

/-- Witness for C2: from rest at the origin toward target angle 1 on the x
axis with max acceleration 2 and time step 1 the snap branch is taken. -/
theorem approachAngleWithAccel_axis_witness :
    (|(angleOffset ⟨0, 0⟩ ⟨1, 0, 0⟩).get 0| < 0.0001 ∨
      (angleChange ⟨0, 0⟩ ⟨1, 0, 0⟩ 2 1).get 0 /
          (angleOffset ⟨0, 0⟩ ⟨1, 0, 0⟩).get 0 > 1) ∧
    (ApproachAngleWithAccel ⟨0, 0⟩ ⟨1, 0, 0⟩ 2 1).angle.get 0 =
        (⟨1, 0, 0⟩ : Vec3).get 0 ∧
      (ApproachAngleWithAccel ⟨0, 0⟩ ⟨1, 0, 0⟩ 2 1).angular_velocity.get 0 =
        (angleOffset ⟨0, 0⟩ ⟨1, 0, 0⟩).get 0 / 1 := by
  have h : (|(angleOffset ⟨0, 0⟩ ⟨1, 0, 0⟩).get 0| < 0.0001 ∨
      (angleChange ⟨0, 0⟩ ⟨1, 0, 0⟩ 2 1).get 0 /
          (angleOffset ⟨0, 0⟩ ⟨1, 0, 0⟩).get 0 > 1) := by
    right
    norm_num [angleChange, angleVelStep, angleAccel, angleStopDistance,
      angleOffset, CalculateStopDistanceAccel_zero, vsign, Vec3.get,
      msign_of_pos]
  exact ⟨h, (approachAngleWithAccel_axis_spec ⟨0, 0⟩ ⟨1, 0, 0⟩ 2 1 0).1 h⟩

/-- C3: per axis, ApproachPositionWithJerk zeroes acceleration and velocity
and snaps the position exactly onto the target when the projected change
divided by the offset exceeds 1, and otherwise adds the projected change to
the position. -/
theorem approachPositionWithJerk_axis_spec (s : PositionalState)
    (position_target max_jerk : Vec3) (time_elapsed : ℝ) (i : Fin 3) :
    ((posChange s position_target max_jerk time_elapsed).get i /
        (posOffset s position_target).get i > 1 →
      (ApproachPositionWithJerk s position_target max_jerk
            time_elapsed).acceleration.get i = 0 ∧
        (ApproachPositionWithJerk s position_target max_jerk
            time_elapsed).velocity.get i = 0 ∧
        (ApproachPositionWithJerk s position_target max_jerk
            time_elapsed).position.get i = position_target.get i) ∧
    (¬ (posChange s position_target max_jerk time_elapsed).get i /
        (posOffset s position_target).get i > 1 →
      (ApproachPositionWithJerk s position_target max_jerk
            time_elapsed).position.get i =
        s.position.get i +
          (posChange s position_target max_jerk time_elapsed).get i) := by
  fin_cases i <;>
  · simp only [ApproachPositionWithJerk, approachPosAxis, Vec3.get]
    split_ifs with hC
    · exact ⟨fun _ => ⟨rfl, rfl, rfl⟩, fun hn => absurd hC hn⟩
    · exact ⟨fun h => absurd h hC, fun _ => rfl⟩

/-- Witness for C3: from rest at the origin toward target position 1 on the
x axis with max jerk 6 and time step 1 the snap branch is taken. -/
theorem approachPositionWithJerk_axis_witness :
    (posChange ⟨0, 0, 0⟩ ⟨1, 1, 1⟩ ⟨6, 6, 6⟩ 1).get 0 /
        (posOffset ⟨0, 0, 0⟩ ⟨1, 1, 1⟩).get 0 > 1 ∧
    (ApproachPositionWithJerk ⟨0, 0, 0⟩ ⟨1, 1, 1⟩ ⟨6, 6, 6⟩
          1).acceleration.get 0 = 0 ∧
      (ApproachPositionWithJerk ⟨0, 0, 0⟩ ⟨1, 1, 1⟩ ⟨6, 6, 6⟩
          1).velocity.get 0 = 0 ∧
      (ApproachPositionWithJerk ⟨0, 0, 0⟩ ⟨1, 1, 1⟩ ⟨6, 6, 6⟩
          1).position.get 0 = (⟨1, 1, 1⟩ : Vec3).get 0 := by
  have h : (posChange ⟨0, 0, 0⟩ ⟨1, 1, 1⟩ ⟨6, 6, 6⟩ 1).get 0 /
      (posOffset ⟨0, 0, 0⟩ ⟨1, 1, 1⟩).get 0 > 1 := by
    norm_num [posChange, posVelStep, posAccelStep, posJerk, posStopDistance,
      posOffset, CalculateStopDistanceJerk_zero, vsign, Vec3.get,
      msign_of_pos]
  exact ⟨h,
    (approachPositionWithJerk_axis_spec ⟨0, 0, 0⟩ ⟨1, 1, 1⟩ ⟨6, 6, 6⟩ 1 0).1 h⟩

/-- C10: on every visible-cursor call, EmulatePoint sets position.y to the
neutral distance 2 before the negativity check, so the jump-to-target branch
is unreachable and the call always performs the ApproachAngleWithAccel
smoothing step (with the acceleration ceiling selected by the fast-pointer
flag). -/
theorem emulatePoint_visible_smooths (s : MotionState)
    (cursor_x cursor_y vertical_offset yaw pitch : ℝ)
    (aim_corrected sensor_bar_on_top fastPointer : Bool)
    (time_elapsed : ℝ) :
    ¬ NEUTRAL_DISTANCE < 0 ∧
    EmulatePoint s true cursor_x cursor_y vertical_offset yaw pitch
        aim_corrected sensor_bar_on_top fastPointer time_elapsed =
      MotionState.withRot
        ({ s with
           position := ⟨0, NEUTRAL_DISTANCE,
                        -(vertical_offset *
                          (if sensor_bar_on_top then 1 else -1))⟩,
           velocity := 0, acceleration := 0 })
        (ApproachAngleWithAccel ⟨s.angle, s.angular_velocity⟩
          ⟨pitch / 2 * -cursor_y, 0, yaw / 2 * -cursor_x⟩
          (if fastPointer = true ∧ aim_corrected = true then TAU * 50
            else TAU * 8)
          time_elapsed) := by
  constructor
  · norm_num [NEUTRAL_DISTANCE]
  · rw [EmulatePoint]
    rw [if_neg (by simp)]
    rw [if_neg (by norm_num [NEUTRAL_DISTANCE])]
    by_cases hfa : fastPointer = true ∧ aim_corrected = true
    · rw [if_pos hfa, if_pos hfa]
      rfl
    · rw [if_neg hfa, if_neg hfa]
      rfl

@[simp] theorem swingClampXZ_position_y (s : MotionState) (md : ℝ) :
    (swingClampXZ s md).position.y = s.position.y := by
  simp only [swingClampXZ]
  split_ifs <;> rfl

@[simp] theorem swingClampXZ_velocity_y (s : MotionState) (md : ℝ) :
    (swingClampXZ s md).velocity.y = s.velocity.y := by
  simp only [swingClampXZ]
  split_ifs <;> rfl

@[simp] theorem swingClampXZ_acceleration_y (s : MotionState) (md : ℝ) :
    (swingClampXZ s md).acceleration.y = s.acceleration.y := by
  simp only [swingClampXZ]
  split_ifs <;> rfl

@[simp] theorem swingClampY_position_x (s : MotionState) (md ma : ℝ) :
    (swingClampY s md ma).position.x = s.position.x := by
  simp only [swingClampY]
  split_ifs <;> rfl

@[simp] theorem swingClampY_position_z (s : MotionState) (md ma : ℝ) :
    (swingClampY s md ma).position.z = s.position.z := by
  simp only [swingClampY]
  split_ifs <;> rfl

@[simp] theorem swingClampY_velocity_x (s : MotionState) (md ma : ℝ) :
    (swingClampY s md ma).velocity.x = s.velocity.x := by
  simp only [swingClampY]
  split_ifs <;> rfl

@[simp] theorem swingClampY_velocity_z (s : MotionState) (md ma : ℝ) :
    (swingClampY s md ma).velocity.z = s.velocity.z := by
  simp only [swingClampY]
  split_ifs <;> rfl

@[simp] theorem swingClampY_acceleration_x (s : MotionState) (md ma : ℝ) :
    (swingClampY s md ma).acceleration.x = s.acceleration.x := by
  simp only [swingClampY]
  split_ifs <;> rfl

@[simp] theorem swingClampY_acceleration_z (s : MotionState) (md ma : ℝ) :
    (swingClampY s md ma).acceleration.z = s.acceleration.z := by
  simp only [swingClampY]
  split_ifs <;> rfl

theorem swingClampXZ_bound (t : MotionState) (md : ℝ) (hmd : 0 < md) :
    Real.sqrt ((swingClampXZ t md).position.x ^ 2 +
      (swingClampXZ t md).position.z ^ 2) ≤ md := by
  simp only [swingClampXZ]
  by_cases hxz : Real.sqrt (t.position.x ^ 2 + t.position.z ^ 2) / md > 1
  · rw [if_pos hxz]
    dsimp only
    set q := Real.sqrt (t.position.x ^ 2 + t.position.z ^ 2) with hqdef
    have hq2 : q ^ 2 = t.position.x ^ 2 + t.position.z ^ 2 :=
      Real.sq_sqrt (by positivity)
    have hppos : 0 < q / md := lt_trans one_pos hxz
    have hqpos : 0 < q := by
      have h1 := mul_pos hppos hmd
      rwa [div_mul_cancel₀ _ (ne_of_gt hmd)] at h1
    have hqne : q ≠ 0 := ne_of_gt hqpos
    have hmdne : md ≠ 0 := ne_of_gt hmd
    have key : (t.position.x / (q / md)) ^ 2 +
        (t.position.z / (q / md)) ^ 2 = md ^ 2 := by
      field_simp
      nlinarith [hq2, sq_nonneg md, sq_nonneg q]
    rw [key, Real.sqrt_sq hmd.le]
  · rw [if_neg hxz]
    have h1 : Real.sqrt (t.position.x ^ 2 + t.position.z ^ 2) / md ≤ 1 :=
      not_lt.mp hxz
    exact (div_le_one hmd).mp h1

theorem swingClampY_bound (u : MotionState) (md ma : ℝ) (hmd : 0 < md) :
    -md ≤ (swingClampY u md ma).position.y ∧
      (swingClampY u md ma).position.y ≤ (2 - Real.cos ma) * md := by
  have hc1 : (-1 : ℝ) ≤ 2 - Real.cos ma := by
    have := Real.cos_le_one ma
    linarith
  have hlohi : -1 * md ≤ (2 - Real.cos ma) * md := by nlinarith
  simp only [swingClampY]
  by_cases hy : u.position.y / md > 2 - Real.cos ma ∨ u.position.y / md < -1
  · rw [if_pos hy]
    dsimp only
    have hmem := clampR_mem u.position.y hlohi
    exact ⟨by linarith [hmem.1], hmem.2⟩
  · rw [if_neg hy]
    push_neg at hy
    obtain ⟨h1, h2⟩ := hy
    constructor
    · have := (le_div_iff₀ hmd).mp h2
      linarith
    · exact (div_le_iff₀ hmd).mp h1

theorem swingClampXZ_zeroes (t : MotionState) (md : ℝ)
    (h : Real.sqrt (t.position.x ^ 2 + t.position.z ^ 2) / md > 1) :
    (swingClampXZ t md).velocity.x = 0 ∧ (swingClampXZ t md).velocity.z = 0 ∧
      (swingClampXZ t md).acceleration.x = 0 ∧
      (swingClampXZ t md).acceleration.z = 0 := by
  simp only [swingClampXZ]
  rw [if_pos h]
  exact ⟨rfl, rfl, rfl, rfl⟩

theorem swingClampY_zeroes (u : MotionState) (md ma : ℝ)
    (h : u.position.y / md > 2 - Real.cos ma ∨ u.position.y / md < -1) :
    (swingClampY u md ma).velocity.y = 0 ∧
      (swingClampY u md ma).acceleration.y = 0 := by
  simp only [swingClampY]
  rw [if_pos h]
  exact ⟨rfl, rfl⟩

/-- C7: after every EmulateSwing call with positive max distance, the lateral
position lies within the configured circle and the forward/backward position
within [-max_distance, (2 - cos(max_angle)) max_distance]; and when a
positional clamp fired, the velocity and acceleration of the clamped axes
are zero after the call. -/
theorem emulateSwing_envelope (s : MotionState) (input_state : Vec3)
    (max_distance max_angle return_speed speed time_elapsed : ℝ)
    (s1 r : MotionState) (hmd : 0 < max_distance)
    (hs1 : s1 = swingBeforeClamp s input_state max_distance max_angle
      return_speed speed time_elapsed)
    (hr : r = EmulateSwing s input_state max_distance max_angle return_speed
      speed time_elapsed) :
    Real.sqrt (r.position.x ^ 2 + r.position.z ^ 2) ≤ max_distance ∧
    -max_distance ≤ r.position.y ∧
    r.position.y ≤ (2 - Real.cos max_angle) * max_distance ∧
    (Real.sqrt (s1.position.x ^ 2 + s1.position.z ^ 2) / max_distance > 1 →
      r.velocity.x = 0 ∧ r.velocity.z = 0 ∧
        r.acceleration.x = 0 ∧ r.acceleration.z = 0) ∧
    (s1.position.y / max_distance > 2 - Real.cos max_angle ∨
        s1.position.y / max_distance < -1 →
      r.velocity.y = 0 ∧ r.acceleration.y = 0) := by
  subst hs1
  subst hr
  rw [EmulateSwing]
  refine ⟨?_, ?_, ?_, ?_, ?_⟩
  · rw [swingClampY_position_x, swingClampY_position_z]
    exact swingClampXZ_bound _ max_distance hmd
  · exact (swingClampY_bound _ max_distance max_angle hmd).1
  · exact (swingClampY_bound _ max_distance max_angle hmd).2
  · intro h
    have hz := swingClampXZ_zeroes _ max_distance h
    rw [swingClampY_velocity_x, swingClampY_velocity_z,
      swingClampY_acceleration_x, swingClampY_acceleration_z]
    exact hz
  · intro h
    apply swingClampY_zeroes
    rw [swingClampXZ_position_y]
    exact h

/-- Witness for C7 at the zero state, zero input, max distance 1, max angle
0, speeds 1 and time step 0. -/
theorem emulateSwing_envelope_witness :
    0 < (1 : ℝ) ∧
    (Real.sqrt ((EmulateSwing MotionState.mzero 0 1 0 1 1 0).position.x ^ 2 +
        (EmulateSwing MotionState.mzero 0 1 0 1 1 0).position.z ^ 2) ≤ 1 ∧
      -1 ≤ (EmulateSwing MotionState.mzero 0 1 0 1 1 0).position.y ∧
      (EmulateSwing MotionState.mzero 0 1 0 1 1 0).position.y ≤
        (2 - Real.cos 0) * 1 ∧
      (Real.sqrt
            ((swingBeforeClamp MotionState.mzero 0 1 0 1 1 0).position.x ^ 2 +
              (swingBeforeClamp MotionState.mzero 0 1 0 1 1
                  0).position.z ^ 2) / 1 > 1 →
        (EmulateSwing MotionState.mzero 0 1 0 1 1 0).velocity.x = 0 ∧
          (EmulateSwing MotionState.mzero 0 1 0 1 1 0).velocity.z = 0 ∧
          (EmulateSwing MotionState.mzero 0 1 0 1 1 0).acceleration.x = 0 ∧
          (EmulateSwing MotionState.mzero 0 1 0 1 1 0).acceleration.z = 0) ∧
      ((swingBeforeClamp MotionState.mzero 0 1 0 1 1 0).position.y / 1 >
            2 - Real.cos 0 ∨
          (swingBeforeClamp MotionState.mzero 0 1 0 1 1 0).position.y / 1 <
            -1 →
        (EmulateSwing MotionState.mzero 0 1 0 1 1 0).velocity.y = 0 ∧
          (EmulateSwing MotionState.mzero 0 1 0 1 1 0).acceleration.y = 0)) :=
  ⟨one_pos,
    emulateSwing_envelope MotionState.mzero 0 1 0 1 1 0 _ _ one_pos rfl rfl⟩

/-- C1 (amended): with theta the angle between the normalized accelerometer
vector and the gyro-rotated rest direction, ComplementaryFilter returns the
gyro orientation rotated by weight times theta about the normalized cross
product exactly when theta is strictly between 0 and pi and different from
pi/2, and returns the gyro orientation unchanged when theta is 0, pi/2 or
pi. -/
theorem complementaryFilter_spec (gyro : Quat) (accel : Vec3) (w : ℝ)
    (nrm : Vec3) :
    ((0 < Real.arccos (dot (normalized accel) (rotVec gyro nrm)) ∧
        Real.arccos (dot (normalized accel) (rotVec gyro nrm)) < Real.pi ∧
        Real.arccos (dot (normalized accel) (rotVec gyro nrm)) ≠
          Real.pi / 2) →
      ComplementaryFilter gyro accel w nrm =
        qmul (qRotate
          (Real.arccos (dot (normalized accel) (rotVec gyro nrm)) * w)
          (normalized (cross (rotVec gyro nrm) (normalized accel)))) gyro) ∧
    ((Real.arccos (dot (normalized accel) (rotVec gyro nrm)) = 0 ∨
        Real.arccos (dot (normalized accel) (rotVec gyro nrm)) =
          Real.pi / 2 ∨
        Real.arccos (dot (normalized accel) (rotVec gyro nrm)) = Real.pi) →
      ComplementaryFilter gyro accel w nrm = gyro) := by
  constructor
  · rintro ⟨h0, hpi, hhalf⟩
    have hc1 : dot (normalized accel) (rotVec gyro nrm) < 1 := by
      by_contra hle
      push_neg at hle
      exact absurd (Real.arccos_eq_zero.mpr hle) (ne_of_gt h0)
    have hcm1 : -1 < dot (normalized accel) (rotVec gyro nrm) := by
      by_contra hle
      push_neg at hle
      exact absurd (Real.arccos_eq_pi.mpr hle) (ne_of_lt hpi)
    have hc0 : dot (normalized accel) (rotVec gyro nrm) ≠ 0 := by
      intro hzero
      exact hhalf (by rw [hzero]; exact Real.arccos_zero)
    simp only [ComplementaryFilter]
    rw [if_pos ⟨abs_pos.mpr hc0, abs_lt.mpr ⟨hcm1, hc1⟩⟩]
  · rintro (h | h | h)
    · have hge : 1 ≤ dot (normalized accel) (rotVec gyro nrm) :=
        Real.arccos_eq_zero.mp h
      simp only [ComplementaryFilter]
      rw [if_neg]
      rintro ⟨-, hlt⟩
      have := (abs_lt.mp hlt).2
      linarith
    · have hzero : dot (normalized accel) (rotVec gyro nrm) = 0 :=
        Real.arccos_eq_pi_div_two.mp h
      simp only [ComplementaryFilter]
      rw [if_neg]
      rintro ⟨hpos, -⟩
      rw [hzero] at hpos
      simp at hpos
    · have hle : dot (normalized accel) (rotVec gyro nrm) ≤ -1 :=
        Real.arccos_eq_pi.mp h
      simp only [ComplementaryFilter]
      rw [if_neg]
      rintro ⟨-, hlt⟩
      have := (abs_lt.mp hlt).1
      linarith

/-- Witness for C1 at the identity gyro orientation and an accelerometer
aligned with the rest direction (theta equal to 0). -/
theorem complementaryFilter_spec_witness :
    (Real.arccos (dot (normalized ⟨0, 0, 1⟩) (rotVec qid ⟨0, 0, 1⟩)) = 0 ∨
      Real.arccos (dot (normalized ⟨0, 0, 1⟩) (rotVec qid ⟨0, 0, 1⟩)) =
        Real.pi / 2 ∨
      Real.arccos (dot (normalized ⟨0, 0, 1⟩) (rotVec qid ⟨0, 0, 1⟩)) =
        Real.pi) ∧
    ComplementaryFilter qid ⟨0, 0, 1⟩ 1 ⟨0, 0, 1⟩ = qid := by
  have hd : dot (normalized (⟨0, 0, 1⟩ : Vec3)) (rotVec qid ⟨0, 0, 1⟩) = 1 :=
    by norm_num [normalized, len, normSq, dot, divs, Real.sqrt_one]
  have h : Real.arccos
      (dot (normalized (⟨0, 0, 1⟩ : Vec3)) (rotVec qid ⟨0, 0, 1⟩)) = 0 := by
    rw [hd]
    exact Real.arccos_one
  exact ⟨Or.inl h,
    (complementaryFilter_spec qid ⟨0, 0, 1⟩ 1 ⟨0, 0, 1⟩).2 (Or.inl h)⟩

/-- Counterexample to C1 as stated: at the identity gyro orientation, rest
direction (0,0,1) and accelerometer (1,0,0), the angle theta is pi/2, which
is strictly between 0 and pi, yet ComplementaryFilter returns the gyro
orientation unchanged rather than rotating it by weight times theta. -/
theorem complementaryFilter_claim_cex :
    0 < Real.arccos (dot (normalized ⟨1, 0, 0⟩) (rotVec qid ⟨0, 0, 1⟩)) ∧
    Real.arccos (dot (normalized ⟨1, 0, 0⟩) (rotVec qid ⟨0, 0, 1⟩)) <
      Real.pi ∧
    ComplementaryFilter qid ⟨1, 0, 0⟩ 1 ⟨0, 0, 1⟩ = qid ∧
    qmul (qRotate
        (Real.arccos (dot (normalized ⟨1, 0, 0⟩) (rotVec qid ⟨0, 0, 1⟩)) * 1)
        (normalized (cross (rotVec qid ⟨0, 0, 1⟩) (normalized ⟨1, 0, 0⟩))))
      qid ≠ qid := by
  have hd : dot (normalized (⟨1, 0, 0⟩ : Vec3)) (rotVec qid ⟨0, 0, 1⟩) = 0 :=
    by norm_num [normalized, len, normSq, dot, divs, Real.sqrt_one]
  refine ⟨?_, ?_, ?_, ?_⟩
  · rw [hd, Real.arccos_zero]
    exact Real.pi_div_two_pos
  · rw [hd, Real.arccos_zero]
    linarith [Real.pi_pos]
  · simp only [ComplementaryFilter]
    rw [hd]
    rw [if_neg (by norm_num)]
  · rw [hd, Real.arccos_zero]
    intro heq
    rw [qmul_qid] at heq
    have hr : Real.cos (Real.pi / 2 * 1 / 2) = 1 := congrArg Quat.r heq
    rw [show Real.pi / 2 * 1 / 2 = Real.pi / 4 by ring,
      Real.cos_pi_div_four] at hr
    have h4 : Real.sqrt 2 ^ 2 = 2 := Real.sq_sqrt (by norm_num)
    have h2 : Real.sqrt 2 = 2 := by linarith
    rw [h2] at h4
    norm_num at h4

/-- C9 (amended): GetRotationFromAcceleration substitutes the fixed fallback
axis (0,1,0) when the cross product has zero length and otherwise uses the
normalized cross product, which is then a unit vector; ComplementaryFilter
has no fallback axis: whenever the cross product of the gyro-rotated (unit)
rest direction and the normalized (nonzero) accelerometer is zero, it
returns the gyro orientation unchanged and never normalizes the degenerate
cross product. -/
theorem rotationAxis_degenerate_spec :
    (∀ accel : Vec3,
      normSq (cross (normalized accel) ⟨0, 0, 1⟩) = 0 →
        GetRotationFromAcceleration accel =
          qRotate (Real.arccos (dot (normalized accel) ⟨0, 0, 1⟩))
            ⟨0, 1, 0⟩) ∧
    (∀ accel : Vec3,
      normSq (cross (normalized accel) ⟨0, 0, 1⟩) ≠ 0 →
        GetRotationFromAcceleration accel =
          qRotate (Real.arccos (dot (normalized accel) ⟨0, 0, 1⟩))
            (normalized (cross (normalized accel) ⟨0, 0, 1⟩)) ∧
        normSq (normalized (cross (normalized accel) ⟨0, 0, 1⟩)) = 1) ∧
    (∀ (gyro : Quat) (accel : Vec3) (w : ℝ) (nrm : Vec3),
      normSq (rotVec gyro nrm) = 1 → normSq accel ≠ 0 →
        cross (rotVec gyro nrm) (normalized accel) = 0 →
        ComplementaryFilter gyro accel w nrm = gyro) := by
  refine ⟨?_, ?_, ?_⟩
  · intro accel h
    simp only [GetRotationFromAcceleration]
    rw [if_neg (not_not_intro h)]
  · intro accel h
    constructor
    · simp only [GetRotationFromAcceleration]
      rw [if_pos h]
    · exact Vec3.normSq_normalized h
  · intro gyro accel w nrm hg ha hc
    have hna : normSq (normalized accel) = 1 := Vec3.normSq_normalized ha
    have hL := Vec3.normSq_cross_add_sq_dot (rotVec gyro nrm)
      (normalized accel)
    rw [hc, hg, hna] at hL
    have h0 : normSq (0 : Vec3) = 0 := by
      simp [normSq, dot]
    rw [h0] at hL
    have hsq : dot (normalized accel) (rotVec gyro nrm) *
        dot (normalized accel) (rotVec gyro nrm) = 1 := by
      rw [Vec3.dot_comm]
      nlinarith [hL]
    simp only [ComplementaryFilter]
    rw [if_neg]
    rintro ⟨-, hlt⟩
    rw [abs_lt] at hlt
    rcases mul_self_eq_one_iff.mp hsq with h1 | h1 <;> rw [h1] at hlt
    · exact absurd hlt.2 (by norm_num)
    · exact absurd hlt.1 (by norm_num)

/-- Witness for C9 at an accelerometer aligned with (0,0,1): the cross
product is zero and the fallback axis is used. -/
theorem rotationAxis_degenerate_spec_witness :
    normSq (cross (normalized ⟨0, 0, 1⟩) ⟨0, 0, 1⟩) = 0 ∧
    GetRotationFromAcceleration ⟨0, 0, 1⟩ =
      qRotate (Real.arccos (dot (normalized ⟨0, 0, 1⟩) ⟨0, 0, 1⟩))
        ⟨0, 1, 0⟩ := by
  have h : normSq (cross (normalized (⟨0, 0, 1⟩ : Vec3)) ⟨0, 0, 1⟩) = 0 := by
    norm_num [normalized, len, normSq, dot, divs, cross, Real.sqrt_one]
  exact ⟨h, rotationAxis_degenerate_spec.1 ⟨0, 0, 1⟩ h⟩

/-- Counterexample to C9 as stated: at the identity gyro orientation, rest
direction (0,0,1) and antiparallel accelerometer (0,0,-1), the cross product
is degenerate, ComplementaryFilter returns the gyro orientation unchanged,
and no rotation by weight times theta about any substituted fallback axis
could produce that result. -/
theorem complementaryFilter_no_fallback_cex :
    normSq (cross (rotVec qid ⟨0, 0, 1⟩) (normalized ⟨0, 0, -1⟩)) = 0 ∧
    ComplementaryFilter qid ⟨0, 0, -1⟩ 1 ⟨0, 0, 1⟩ = qid ∧
    ∀ axis : Vec3,
      qmul (qRotate
          (Real.arccos (dot (normalized ⟨0, 0, -1⟩)
            (rotVec qid ⟨0, 0, 1⟩)) * 1) axis) qid ≠ qid := by
  have hd : dot (normalized (⟨0, 0, -1⟩ : Vec3)) (rotVec qid ⟨0, 0, 1⟩) =
      -1 := by
    norm_num [normalized, len, normSq, dot, divs, Real.sqrt_one]
  refine ⟨?_, ?_, ?_⟩
  · norm_num [normalized, len, normSq, dot, divs, cross, Real.sqrt_one]
  · simp only [ComplementaryFilter]
    rw [hd]
    rw [if_neg (by norm_num)]
  · rw [hd, Real.arccos_neg_one]
    intro axis heq
    rw [qmul_qid] at heq
    have hr : Real.cos (Real.pi * 1 / 2) = 1 := congrArg Quat.r heq
    rw [show Real.pi * 1 / 2 = Real.pi / 2 by ring,
      Real.cos_pi_div_two] at hr
    norm_num at hr
